import Mathlib

/-!
# Verification of the upload-orchestration engine

Shallow embedding of `src/ui/src/state/storage/upload.ts` (the Landscape
upload store): the data model (file upload records, uploaders, the file
store), the key-generation scheme of `uploadFiles`, the store operations
(`update`, `clear`, `updateFile`, `updateStatus`, `removeByURL`,
`getMostRecent`), the per-file dispatch flow of `upload` (both delivery
strategies, modelled as the ordered sequence of atomic store updates each
asynchronous outcome produces), the remote-client cache (`createClient` /
`useClient`) and the uploader hook (`useUploader`).

JavaScript conventions carried over by the embedding:
* a JS object used as a string-keyed map is an insertion-ordered
  association list; `obj[k] = v` replaces in place when `k` is present and
  appends otherwise;
* an absent/falsy string field (`''`/`undefined`) is modelled as `""`,
  and optional values as `Option`;
* JS string comparison (used by `Array.prototype.sort`) is lexicographic
  on code units; keys here are ASCII, so it is modelled by `charListLt`
  on the character lists;
* an operation whose JS execution would throw a `TypeError`
  (dereferencing an absent record) returns `none`.
-/

/-- `status` of a file upload record: `'initial' | 'loading' | 'success' | 'error'`. -/
inductive Status
  | initial
  | loading
  | success
  | error
deriving DecidableEq, Repr

/-- A browser `File`: `name`, declared MIME type (`file.type`) and byte
length (`file.size`). -/
structure JSFile where
  name : String
  mimeType : String
  byteSize : Nat
deriving DecidableEq, Repr, Inhabited

/-- One entry of `Uploader.files`, as seeded by `uploadFiles`
(`{ file, key, status, url, size }`); `errorMessage` is absent (`none`)
until `updateStatus` writes it. -/
structure FileUpload where
  file : JSFile
  key : String
  status : Status
  url : String
  size : Nat × Nat
  errorMessage : Option String := none
deriving DecidableEq, Repr

/-- `StorageCredentials` from `@/gear`: the fields read by this module. -/
structure StorageCredentials where
  endpoint : String
  accessKeyId : String
  secretAccessKey : String
deriving DecidableEq, Repr

/-- `StorageConfiguration` from `@/gear`: the fields read by this module.
`""` models an absent/falsy field. -/
structure StorageConfiguration where
  service : String
  presignedUrl : String := ""
  currentBucket : String := ""
  region : String := ""
  publicUrlBase : String := ""
deriving DecidableEq, Repr

/-- The constructed `S3Client`, kept as the construction arguments
(`endpoint` already normalized by `prefixEndpoint`; the `URL` host/path
split is not modelled — no claim depends on it). -/
structure S3Client where
  endpoint : String
  region : String
  credentials : StorageCredentials
  forcePathStyle : Bool
deriving DecidableEq, Repr

/-- The state portion of an `Uploader` (its `files` mapping); the other
members of `emptyUploader` are closures delegating to the store. -/
structure UploaderState where
  files : List (String × FileUpload)
deriving DecidableEq, Repr

/-- The zustand `FileStore` state: `client` and `uploaders`. -/
structure FileStore where
  client : Option S3Client := none
  uploaders : List (String × UploaderState) := []
deriving DecidableEq, Repr

/-! ## JS-object-as-map helpers -/

/-- `obj[k]` on a string-keyed JS object. -/
def alistGet {α : Type} : List (String × α) → String → Option α
  | [], _ => none
  | (k, v) :: t, key => if k = key then some v else alistGet t key

/-- `obj[k] = v` on a string-keyed JS object: replace in place when the
key is present, append otherwise. -/
def alistSet {α : Type} : List (String × α) → String → α → List (String × α)
  | [], key, v => [(key, v)]
  | (k, w) :: t, key, v =>
    if k = key then (k, v) :: t else (k, w) :: alistSet t key v

/-- Right-to-left accumulation of `obj[k] = v` assignments: models both
`_.keyBy` (over an empty base) and object spread `{ ...base, ...entries }`. -/
def insertAll {α : Type} (base entries : List (String × α)) : List (String × α) :=
  entries.foldl (fun acc kv => alistSet acc kv.1 kv.2) base

/-! ## JS string comparison -/

/-- JS `<` on strings (code-unit lexicographic), on the character lists;
the keys this module compares are ASCII. -/
def charListLt : List Char → List Char → Bool
  | [], [] => false
  | [], _ :: _ => true
  | _ :: _, [] => false
  | a :: as, b :: bs =>
    if a < b then true else if b < a then false else charListLt as bs

/-- JS `<` on strings. -/
def strLt (a b : String) : Bool := charListLt a.data b.data

/-! ## Key generation (`uploadFiles`) -/

/-- Decimal digit character. -/
def digitChar (n : Nat) : Char :=
  match n with
  | 0 => '0' | 1 => '1' | 2 => '2' | 3 => '3' | 4 => '4'
  | 5 => '5' | 6 => '6' | 7 => '7' | 8 => '8' | _ => '9'

/-- The `k` low decimal digits of `t`, least significant first. -/
def digitsLE : Nat → Nat → List Char
  | 0, _ => []
  | k + 1, t => digitChar (t % 10) :: digitsLE k (t / 10)

/-- Modelled from the spec: the timestamp encoding
`formatDa(unixToDa(ms))` of `@urbit/aura` (library code, not in `src/`).
The spec states that keys embed "a monotonically increasing timestamp"
and are "sortable", so the encoding is modelled as an order-preserving
fixed-width rendering of the millisecond clock: 20 zero-padded decimal
digits, most significant first. -/
def encTimestamp (t : Nat) : String := ⟨(digitsLE 20 t).reverse⟩

/-- `deSig` of `@urbit/aura`: `s.replace('~', '')`, removing the first
`'~'` (the timestamp encoding modelled here never produces one). -/
def deSig (s : String) : String :=
  ⟨removeFirstTilde s.data⟩
where
  removeFirstTilde : List Char → List Char
    | [] => []
    | c :: t => if c = '~' then t else c :: removeFirstTilde t

/-- The key template of `uploadFiles`:
`` `${window.ship}/${deSig(formatDa(unixToDa(now)))}-${file.name}` ``. -/
def mkKey (ship : String) (t : Nat) (name : String) : String :=
  ship ++ "/" ++ deSig (encTimestamp t) ++ "-" ++ name

/-- One element of `fileList`: `{ file, key, status: 'initial', url: '',
size: [0, 0] }`. -/
def seedRecord (ship : String) (t : Nat) (f : JSFile) : String × FileUpload :=
  let k := mkKey ship t f.name
  (k, { file := f, key := k, status := Status.initial, url := "", size := (0, 0) })

/-- `List.map` with the element index; `new Date().getTime()` is called
once per element of the `.map` over `files`, modelled by `clock i`. -/
def mapWithIndex {α β : Type} (f : Nat → α → β) : Nat → List α → List β
  | _, [] => []
  | i, a :: t => f i a :: mapWithIndex f (i + 1) t

/-- The `fileList` built by `uploadFiles`: one seeded record per file,
keyed by the generated key. -/
def seedFileList (ship : String) (clock : Nat → Nat) (files : List JSFile) :
    List (String × FileUpload) :=
  mapWithIndex (fun i f => seedRecord ship (clock i) f) 0 files

/-- The generated keys of a batch. -/
def seedKeys (ship : String) (clock : Nat → Nat) (files : List JSFile) : List String :=
  (seedFileList ship clock files).map Prod.fst

/-! ## Store operations -/

/-- The seeding step of `uploadFiles`:
`update(uploader, draft => { draft.files = { ...draft.files, ...newFiles } })`
with `newFiles = _.keyBy(fileList, 'key')`. `none` when the uploader is
absent (the `update` callback would dereference `undefined`). -/
def uploadFilesSeed (s : FileStore) (uploader ship : String) (clock : Nat → Nat)
    (files : List JSFile) : Option FileStore :=
  match alistGet s.uploaders uploader with
  | none => none
  | some up =>
    some { s with
      uploaders := alistSet s.uploaders uploader
        ⟨insertAll up.files (insertAll [] (seedFileList ship clock files))⟩ }

/-- `clear`: `draft.files = {}`; `none` when the uploader is absent. -/
def clear (s : FileStore) (uploader : String) : Option FileStore :=
  match alistGet s.uploaders uploader with
  | none => none
  | some _ =>
    some { s with uploaders := alistSet s.uploaders uploader ⟨[]⟩ }

/-- `updateFile`: `draft.files[fileKey] = { ...current, ...file }` where
`file` is the `{ size, url }` patch written by the dimension resolver.
The code reads `draft.files[fileKey]` and spreads it; spreading
`undefined` yields an object without the record fields, so the model
requires the record to be present (`none` otherwise). -/
def updateFile (s : FileStore) (uploader fileKey : String) (url : String)
    (size : Nat × Nat) : Option FileStore :=
  match alistGet s.uploaders uploader with
  | none => none
  | some up =>
    match alistGet up.files fileKey with
    | none => none
    | some r =>
      some { s with
        uploaders := alistSet s.uploaders uploader
          ⟨alistSet up.files fileKey { r with url := url, size := size }⟩ }

/-- `updateStatus`: `draft.files[fileKey].status = status`, and
`draft.files[fileKey].errorMessage = msg` when `status === 'error' && msg`
(a JS-falsy empty message is not written). `none` when the uploader or the
record is absent: the assignment to `.status` of `undefined` throws. -/
def updateStatus (s : FileStore) (uploader fileKey : String) (status : Status)
    (msg : Option String) : Option FileStore :=
  match alistGet s.uploaders uploader with
  | none => none
  | some up =>
    match alistGet up.files fileKey with
    | none => none
    | some r =>
      let r' :=
        if status = Status.error then
          match msg with
          | some m => if m = "" then { r with status := status }
                      else { r with status := status, errorMessage := some m }
          | none => { r with status := status }
        else { r with status := status }
      some { s with
        uploaders := alistSet s.uploaders uploader ⟨alistSet up.files fileKey r'⟩ }

/-- `removeByURL`:
`draft.files = Object.fromEntries(Object.entries(files).filter(([_k, f]) => f.url !== url))`;
`none` when the uploader is absent. -/
def removeByURL (s : FileStore) (uploader url : String) : Option FileStore :=
  match alistGet s.uploaders uploader with
  | none => none
  | some up =>
    some { s with
      uploaders := alistSet s.uploaders uploader
        ⟨up.files.filter (fun kf => kf.2.url ≠ url)⟩ }

/-- Greatest key under JS string comparison: `_.last(keys.sort())`
(ascending sort, then last element; object keys are pairwise distinct). -/
def maxKey : List String → Option String
  | [] => none
  | k :: ks =>
    some (match maxKey ks with
          | none => k
          | some m => if strLt m k then k else m)

/-- `getMostRecent`: `null` for an absent uploader, else
`files[_.last(Object.keys(files).sort())]` (or `null` when there is no
key). -/
def getMostRecent (s : FileStore) (key : String) : Option FileUpload :=
  match alistGet s.uploaders key with
  | none => none
  | some up =>
    match maxKey (up.files.map Prod.fst) with
    | none => none
    | some fileKey => alistGet up.files fileKey

/-! ## The dispatch flow of `upload`

`upload` drives one record through its lifecycle with a chain of
asynchronous steps. Each store write it performs (`updateStatus` /
`updateFile`) is one atomic zustand mutation; the flow is modelled as the
ordered list of those mutations, as a function of the outcome of every
asynchronous step (token scry, proxy PUT, file-url GET, signed-url
computation, S3 send, image-size fetch). `Except.error m` models a
rejected promise whose `error.message` is `m`. -/

/-- One atomic store mutation performed on the record by `upload`. -/
inductive UploadEvent
  | setStatus (status : Status) (msg : Option String)
  | setFile (url : String) (size : Nat × Nat)
deriving DecidableEq, Repr

/-- The proxy's response to the PUT: `response.status` and the text body
read on failure. -/
structure ProxyResponse where
  status : Nat
  body : String
deriving DecidableEq, Repr

/-- Outcomes of the asynchronous steps of the `presigned-url` strategy. -/
structure PresignedEnv where
  scry : Except String String
  put : Except String ProxyResponse
  getUrl : Except String String
  size : Except String (Nat × Nat)
deriving Repr

/-- Outcomes of the asynchronous steps of the `credentials` strategy. -/
structure CredEnv where
  signedUrl : Except String String
  send : Except String Unit
  size : Except String (Nat × Nat)
deriving Repr

/-- Outcomes of every asynchronous step a dispatch may perform. -/
structure UploadEnv where
  pre : PresignedEnv
  cred : CredEnv
deriving Repr

/-- The `presigned-url` branch of `upload` (entered when
`config.service === 'presigned-url' && config.presignedUrl`):
mutations after the initial `loading` write.
* a rejected token scry rejects the whole async function before the
  `fetch` chain is set up: no further mutation;
* a rejected PUT, a non-200 response (`new Error(body || 'Incorrect
  response status')`) and a rejected file-url GET are caught by the
  `.catch`, which writes `error` with the Tlon-prefixed message;
* on success the record is marked `success` and, only if the image-size
  fetch resolves, `{ size, url: fileUrl }` is patched in afterwards. -/
def presignedEvents (e : PresignedEnv) : List UploadEvent :=
  match e.scry with
  | Except.error _ => []
  | Except.ok _ =>
    match e.put with
    | Except.error m =>
      [UploadEvent.setStatus Status.error
        (some ("Tlon Hosting upload error: " ++ m ++ ", contact support if it persists."))]
    | Except.ok resp =>
      if resp.status ≠ 200 then
        [UploadEvent.setStatus Status.error
          (some ("Tlon Hosting upload error: " ++
            (if resp.body = "" then "Incorrect response status" else resp.body) ++
            ", contact support if it persists."))]
      else
        match e.getUrl with
        | Except.error m =>
          [UploadEvent.setStatus Status.error
            (some ("Tlon Hosting upload error: " ++ m ++ ", contact support if it persists."))]
        | Except.ok fileUrl =>
          UploadEvent.setStatus Status.success none ::
          (match e.size with
           | Except.error _ => []
           | Except.ok s => [UploadEvent.setFile fileUrl s])

/-- `new URL(key, publicUrlBase).toString()`. For the bases this store is
configured with (an origin whose path is `/`) resolution is
concatenation; the general relative-URL algorithm is not modelled (no
claim depends on it). -/
def urlResolve (key publicUrlBase : String) : String := publicUrlBase ++ key

/-- `res.split('?')[0]`: the signed URL with its query string stripped. -/
def stripQuery (s : String) : String := (s.splitOn "?").headD ""

/-- The `credentials` branch of `upload` (entered when
`config.service === 'credentials' && client`): mutations after the
initial `loading` write.
* the URL is computed first: from `publicUrlBase` when configured,
  otherwise by awaiting `getSignedUrl` — whose rejection rejects the
  whole async function before `client.send` is chained: no mutation;
* a rejected `send` is caught and writes `error` with the S3-prefixed
  message;
* on success the record is marked `success` and, only if the image-size
  fetch resolves, `{ size, url }` is patched in afterwards. -/
def credEvents (cfg : StorageConfiguration) (key : String) (e : CredEnv) :
    List UploadEvent :=
  match (if cfg.publicUrlBase ≠ "" then Except.ok (urlResolve key cfg.publicUrlBase)
         else e.signedUrl.map stripQuery) with
  | Except.error _ => []
  | Except.ok url =>
    match e.send with
    | Except.error m =>
      [UploadEvent.setStatus Status.error
        (some ("S3 upload error: " ++ m ++ ", check your S3 configuration."))]
    | Except.ok _ =>
      UploadEvent.setStatus Status.success none ::
      (match e.size with
       | Except.error _ => []
       | Except.ok s => [UploadEvent.setFile url s])

/-- All atomic mutations `upload` performs on its record, in order:
`updateStatus(uploader, key, 'loading')` first, then the strategy branch
that the two `if`s select (at most one fires: `config.service` is a
single string). -/
def uploadEvents (client : Option S3Client) (cfg : StorageConfiguration)
    (key : String) (env : UploadEnv) : List UploadEvent :=
  UploadEvent.setStatus Status.loading none ::
  ((if cfg.service = "presigned-url" ∧ cfg.presignedUrl ≠ ""
    then presignedEvents env.pre else []) ++
   (if cfg.service = "credentials" ∧ client.isSome
    then credEvents cfg key env.cred else []))

/-- Effect of one mutation on the record, mirroring `updateStatus` and
`updateFile`. -/
def applyEvent (r : FileUpload) : UploadEvent → FileUpload
  | UploadEvent.setStatus st msg =>
    if st = Status.error then
      match msg with
      | some m => if m = "" then { r with status := st }
                  else { r with status := st, errorMessage := some m }
      | none => { r with status := st }
    else { r with status := st }
  | UploadEvent.setFile url size => { r with url := url, size := size }

/-- Every state of the record a concurrent reader of the store can
observe: the seeded state and the state after each atomic mutation. -/
def observedStates (r : FileUpload) (evts : List UploadEvent) : List FileUpload :=
  evts.scanl applyEvent r

/-- The record once the dispatch (and the enrichment step) has finished. -/
def finalRecord (r : FileUpload) (evts : List UploadEvent) : FileUpload :=
  evts.foldl applyEvent r

/-- The statuses written over time, beginning with the seeded one. -/
def statusTrace (r : FileUpload) (evts : List UploadEvent) : List Status :=
  r.status :: evts.filterMap (fun e =>
    match e with
    | UploadEvent.setStatus st _ => some st
    | UploadEvent.setFile _ _ => none)

/-! ## The remote client cache (`createClient` / `useClient`) -/

/-- Is `pat` a substring of `l`? (JS `String.prototype.match` with a
non-anchored literal pattern.) -/
def infixOf (pat : List Char) : List Char → Bool
  | [] => pat.isEmpty
  | c :: t => pat.isPrefixOf (c :: t) || infixOf pat t

/-- `prefixEndpoint`: prepend `https://` unless the endpoint already
matches `/https?:\/\//`. -/
def prefixEndpoint (endpoint : String) : String :=
  if infixOf "http://".data endpoint.data || infixOf "https://".data endpoint.data
  then endpoint
  else "https://" ++ endpoint

/-- `createClient`: builds the `S3Client` from the normalized endpoint,
`region || 'us-east-1'`, the credentials and `forcePathStyle: true`, and
stores it with `set({ client })`. Construction is local: no network call. -/
def createClient (credentials : StorageCredentials) (region : String) : S3Client :=
  { endpoint := prefixEndpoint credentials.endpoint
    region := if region = "" then "us-east-1" else region
    credentials := credentials
    forcePathStyle := true }

/-- The state the `useClient` hook ranges over: the store's `client`, the
hook's `hasCredentials` flag, and a construction counter (for the
at-most-one-construction property). -/
structure ClientCacheState where
  client : Option S3Client := none
  hasCredentials : Bool := false
  constructions : Nat := 0
deriving DecidableEq, Repr

/-- The inputs of one `useClient` render: the settings' configuration and
credentials. -/
structure ClientEnv where
  service : String
  credentials : Option StorageCredentials
  region : String
deriving DecidableEq, Repr

/-- The `hasCreds` test of the first effect:
`configuration.service === 'credentials' && credentials?.accessKeyId &&
credentials?.endpoint && credentials?.secretAccessKey` (truthiness of the
three fields). -/
def envHasCreds (env : ClientEnv) : Bool :=
  env.service = "credentials" &&
  (match env.credentials with
   | some c => c.accessKeyId ≠ "" && c.endpoint ≠ "" && c.secretAccessKey ≠ ""
   | none => false)

/-- One settled render cycle of `useClient` for one input: the first
effect latches `hasCredentials` (it is only ever set to `true`), and the
second effect calls `initClient` — which constructs a client — exactly
when `hasCredentials && !client`. -/
def useClientStep (s : ClientCacheState) (env : ClientEnv) : ClientCacheState :=
  let hasCreds := s.hasCredentials || envHasCreds env
  if hasCreds && s.client.isNone then
    match env.credentials with
    | some c =>
      { client := some (createClient c env.region)
        hasCredentials := hasCreds
        constructions := s.constructions + 1 }
    | none => { s with hasCredentials := hasCreds }
  else { s with hasCredentials := hasCreds }

/-- A run of `useClient` over a sequence of inputs. -/
def useClientRun (s : ClientCacheState) : List ClientEnv → ClientCacheState
  | [] => s
  | env :: t => useClientRun (useClientStep s env) t

/-! ## The uploader hook (`useUploader`) -/

/-- The prerequisite test of the `useUploader` effect:
`(client && configuration.service === 'credentials') ||
(configuration.service === 'presigned-url' && configuration.presignedUrl)`. -/
def uploaderPrereq (clientPresent : Bool) (cfg : StorageConfiguration) : Bool :=
  (clientPresent && cfg.service = "credentials") ||
  (cfg.service = "presigned-url" && cfg.presignedUrl ≠ "")

/-- The `useUploader` effect: when the prerequisites hold it runs
`draft.uploaders[key] = emptyUploader(key, configuration)` — a fresh
uploader whose `files` mapping is empty — and otherwise leaves the store
unchanged. -/
def useUploaderEffect (s : FileStore) (key : String) (cfg : StorageConfiguration)
    (clientPresent : Bool) : FileStore :=
  if uploaderPrereq clientPresent cfg then
    { s with uploaders := alistSet s.uploaders key ⟨[]⟩ }
  else s

/-! ## Lemmas: JS string comparison -/

theorem charListLt_irrefl (l : List Char) : charListLt l l = false := by
  induction l with
  | nil => rfl
  | cons a t ih => simp [charListLt, lt_irrefl a, ih]

theorem charListLt_ne {a b : List Char} (h : charListLt a b = true) : a ≠ b := by
  intro rfl_h
  rw [rfl_h, charListLt_irrefl] at h
  exact Bool.false_ne_true h

theorem charListLt_asymm {a b : List Char} (h : charListLt a b = true) :
    charListLt b a = false := by
  induction a generalizing b with
  | nil =>
    cases b with
    | nil => exact absurd h (by simp [charListLt])
    | cons y bs => rfl
  | cons x as ih =>
    cases b with
    | nil => exact absurd h (by simp [charListLt])
    | cons y bs =>
      by_cases hxy : x < y
      · simp [charListLt, hxy, asymm hxy]
      · by_cases hyx : y < x
        · simp [charListLt, hxy, hyx] at h
        · simp [charListLt, hxy, hyx] at h ⊢
          exact ih h

theorem charListLt_trans {a b c : List Char} (hab : charListLt a b = true)
    (hbc : charListLt b c = true) : charListLt a c = true := by
  induction a generalizing b c with
  | nil =>
    cases b with
    | nil => exact absurd hab (by simp [charListLt])
    | cons y bs =>
      cases c with
      | nil => exact absurd hbc (by simp [charListLt])
      | cons z cs => simp [charListLt]
  | cons x as ih =>
    cases b with
    | nil => exact absurd hab (by simp [charListLt])
    | cons y bs =>
      cases c with
      | nil => exact absurd hbc (by simp [charListLt])
      | cons z cs =>
        by_cases hxy : x < y
        · by_cases hyz : y < z
          · simp [charListLt, lt_trans hxy hyz]
          · by_cases hzy : z < y
            · simp [charListLt, hyz, hzy] at hbc
            · have hyez : y = z := le_antisymm (not_lt.mp hzy) (not_lt.mp hyz)
              subst hyez
              simp [charListLt, hxy]
        · by_cases hyx : y < x
          · simp [charListLt, hxy, hyx] at hab
          · have hxey : x = y := le_antisymm (not_lt.mp hyx) (not_lt.mp hxy)
            subst hxey
            simp [charListLt, lt_irrefl x] at hab
            by_cases hxz : x < z
            · simp [charListLt, hxz]
            · by_cases hzx : z < x
              · simp [charListLt, hxz, hzx] at hbc
              · simp [charListLt, hxz, hzx] at hbc ⊢
                exact ih hab hbc

theorem charListLt_append_right {a b : List Char} (c d : List Char)
    (hlen : a.length = b.length) (h : charListLt a b = true) :
    charListLt (a ++ c) (b ++ d) = true := by
  induction a generalizing b with
  | nil =>
    cases b with
    | nil => exact absurd h (by simp [charListLt])
    | cons y bs => simp at hlen
  | cons x as ih =>
    cases b with
    | nil => simp at hlen
    | cons y bs =>
      simp only [List.length_cons, Nat.add_right_cancel_iff] at hlen
      by_cases hxy : x < y
      · simp [charListLt, hxy]
      · by_cases hyx : y < x
        · simp [charListLt, hxy, hyx] at h
        · simp [charListLt, hxy, hyx] at h ⊢
          exact ih hlen h

theorem charListLt_append_left (p c d : List Char) :
    charListLt (p ++ c) (p ++ d) = charListLt c d := by
  induction p with
  | nil => rfl
  | cons e t ih => simp [charListLt, lt_irrefl e, ih]

/-! ## Lemmas: the timestamp encoding and key generation -/

theorem digitChar_lt {n m : Nat} (hn : n < 10) (hm : m < 10) (h : n < m) :
    digitChar n < digitChar m := by
  interval_cases n <;> interval_cases m <;> revert h <;> decide

theorem digitChar_inj {n m : Nat} (hn : n < 10) (hm : m < 10)
    (h : digitChar n = digitChar m) : n = m := by
  interval_cases n <;> interval_cases m <;> revert h <;> decide

theorem digitChar_ne_tilde (n : Nat) : digitChar n ≠ '~' := by
  unfold digitChar
  split <;> decide

theorem digitsLE_length (k t : Nat) : (digitsLE k t).length = k := by
  induction k generalizing t with
  | zero => rfl
  | succ k ih => simp [digitsLE, ih]

theorem digitsLE_ne_tilde {k t : Nat} {c : Char} (h : c ∈ digitsLE k t) : c ≠ '~' := by
  induction k generalizing t with
  | zero => simp [digitsLE] at h
  | succ k ih =>
    simp only [digitsLE, List.mem_cons] at h
    rcases h with h | h
    · exact h ▸ digitChar_ne_tilde _
    · exact ih h

theorem digitsLE_inj (k : Nat) : ∀ t₁ t₂, t₁ < 10 ^ k → t₂ < 10 ^ k →
    digitsLE k t₁ = digitsLE k t₂ → t₁ = t₂ := by
  induction k with
  | zero => intro t₁ t₂ h₁ h₂ _; omega
  | succ k ih =>
    intro t₁ t₂ h₁ h₂ h
    simp only [digitsLE, List.cons.injEq] at h
    have hm : t₁ % 10 = t₂ % 10 :=
      digitChar_inj (Nat.mod_lt _ (by omega)) (Nat.mod_lt _ (by omega)) h.1
    have hb₁ : t₁ / 10 < 10 ^ k := by
      rw [Nat.div_lt_iff_lt_mul (by omega)]
      calc t₁ < 10 ^ (k + 1) := h₁
        _ = 10 ^ k * 10 := by rw [pow_succ]
    have hb₂ : t₂ / 10 < 10 ^ k := by
      rw [Nat.div_lt_iff_lt_mul (by omega)]
      calc t₂ < 10 ^ (k + 1) := h₂
        _ = 10 ^ k * 10 := by rw [pow_succ]
    have hd : t₁ / 10 = t₂ / 10 := ih _ _ hb₁ hb₂ h.2
    omega

theorem digitsLE_rev_lt (k : Nat) : ∀ t₁ t₂, t₁ < t₂ → t₂ < 10 ^ k →
    charListLt (digitsLE k t₁).reverse (digitsLE k t₂).reverse = true := by
  induction k with
  | zero => intro t₁ t₂ h₁ h₂; omega
  | succ k ih =>
    intro t₁ t₂ hlt hb
    have hb₂ : t₂ / 10 < 10 ^ k := by
      rw [Nat.div_lt_iff_lt_mul (by omega)]
      calc t₂ < 10 ^ (k + 1) := hb
        _ = 10 ^ k * 10 := by rw [pow_succ]
    simp only [digitsLE, List.reverse_cons]
    rcases Nat.lt_or_ge (t₁ / 10) (t₂ / 10) with hq | hq
    · exact charListLt_append_right _ _
        (by rw [List.length_reverse, List.length_reverse, digitsLE_length, digitsLE_length])
        (ih _ _ hq hb₂)
    · have hqe : t₁ / 10 = t₂ / 10 :=
        le_antisymm (Nat.div_le_div_right (le_of_lt hlt)) hq
      have hr : t₁ % 10 < t₂ % 10 := by
        have e₁ := Nat.div_add_mod t₁ 10
        have e₂ := Nat.div_add_mod t₂ 10
        omega
      rw [hqe, charListLt_append_left]
      simp [charListLt,
        digitChar_lt (Nat.mod_lt _ (by omega)) (Nat.mod_lt _ (by omega)) hr]

theorem deSig_encTimestamp (t : Nat) : deSig (encTimestamp t) = encTimestamp t := by
  have noTilde : ∀ l : List Char, (∀ c ∈ l, c ≠ '~') →
      deSig.removeFirstTilde l = l := by
    intro l hl
    induction l with
    | nil => rfl
    | cons c tl ih =>
      simp only [deSig.removeFirstTilde]
      rw [if_neg (hl c (List.mem_cons_self c tl)), ih fun c hc => hl c (List.mem_cons_of_mem _ hc)]
  have hs : ∀ c ∈ (encTimestamp t).data, c ≠ '~' := by
    intro c hc
    have : c ∈ digitsLE 20 t := List.mem_reverse.mp hc
    exact digitsLE_ne_tilde this
  show String.mk (deSig.removeFirstTilde (encTimestamp t).data) = encTimestamp t
  rw [noTilde _ hs]

theorem encTimestamp_data (t : Nat) :
    (encTimestamp t).data = (digitsLE 20 t).reverse := rfl

theorem mkKey_data (ship : String) (t : Nat) (name : String) :
    (mkKey ship t name).data =
      (ship.data ++ ['/']) ++ ((digitsLE 20 t).reverse ++ '-' :: name.data) := by
  show (ship ++ "/" ++ deSig (encTimestamp t) ++ "-" ++ name).data = _
  rw [deSig_encTimestamp]
  simp [String.data_append, encTimestamp_data]

theorem mkKey_lt {t₁ t₂ : Nat} (ship n₁ n₂ : String) (hlt : t₁ < t₂)
    (hb : t₂ < 10 ^ 20) : strLt (mkKey ship t₁ n₁) (mkKey ship t₂ n₂) = true := by
  unfold strLt
  rw [mkKey_data, mkKey_data, charListLt_append_left]
  exact charListLt_append_right _ _
    (by rw [List.length_reverse, List.length_reverse, digitsLE_length, digitsLE_length])
    (digitsLE_rev_lt 20 t₁ t₂ hlt hb)

theorem mkKey_inj {t₁ t₂ : Nat} {ship n₁ n₂ : String} (hb₁ : t₁ < 10 ^ 20)
    (hb₂ : t₂ < 10 ^ 20) (h : mkKey ship t₁ n₁ = mkKey ship t₂ n₂) :
    t₁ = t₂ ∧ n₁ = n₂ := by
  have hd := congrArg String.data h
  rw [mkKey_data, mkKey_data] at hd
  have hd' := List.append_cancel_left hd
  have hsplit := List.append_inj hd'
    (by rw [List.length_reverse, List.length_reverse, digitsLE_length, digitsLE_length])
  have ht : t₁ = t₂ := digitsLE_inj 20 t₁ t₂ hb₁ hb₂ (List.reverse_injective hsplit.1)
  have hn : n₁ = n₂ := by
    have := hsplit.2
    simp only [List.cons.injEq, true_and] at this
    exact String.ext this
  exact ⟨ht, hn⟩

theorem mkKey_ne {t₁ t₂ : Nat} (ship n₁ n₂ : String) (hb₁ : t₁ < 10 ^ 20)
    (hb₂ : t₂ < 10 ^ 20) (h : t₁ ≠ t₂ ∨ n₁ ≠ n₂) :
    mkKey ship t₁ n₁ ≠ mkKey ship t₂ n₂ := by
  intro he
  rcases mkKey_inj hb₁ hb₂ he with ⟨ht, hn⟩
  rcases h with h | h
  · exact h ht
  · exact h hn

/-! ## Lemmas: association lists and `maxKey` -/

theorem alistGet_set_self {α : Type} (l : List (String × α)) (k : String) (v : α) :
    alistGet (alistSet l k v) k = some v := by
  induction l with
  | nil => simp [alistSet, alistGet]
  | cons kw t ih =>
    by_cases h : kw.1 = k
    · simp [alistSet, alistGet, h]
    · simp only [alistSet, alistGet]
      rw [if_neg h, alistGet, if_neg h]
      exact ih

theorem alistGet_set_ne {α : Type} (l : List (String × α)) {k k' : String} (v : α)
    (h : k' ≠ k) : alistGet (alistSet l k v) k' = alistGet l k' := by
  induction l with
  | nil =>
    simp only [alistSet, alistGet]
    rw [if_neg fun he => h he.symm]
  | cons kw t ih =>
    by_cases hk : kw.1 = k
    · simp only [alistSet]
      rw [if_pos hk, alistGet, alistGet]
      have hne : ¬ kw.1 = k' := fun he => h (he.symm.trans hk)
      rw [if_neg hne, if_neg hne]
    · simp only [alistSet]
      rw [if_neg hk, alistGet, alistGet]
      by_cases hk' : kw.1 = k'
      · rw [if_pos hk', if_pos hk']
      · rw [if_neg hk', if_neg hk']
        exact ih

theorem alistGet_mem {α : Type} {l : List (String × α)} {k : String} {v : α}
    (h : alistGet l k = some v) : (k, v) ∈ l := by
  induction l with
  | nil => simp [alistGet] at h
  | cons kw t ih =>
    rw [alistGet] at h
    by_cases hk : kw.1 = k
    · rw [if_pos hk] at h
      have hkw : kw = (k, v) := Prod.ext hk (Option.some_inj.mp h)
      rw [hkw]
      exact List.mem_cons_self _ _
    · rw [if_neg hk] at h
      exact List.mem_cons_of_mem _ (ih h)

theorem maxKey_eq_none {ks : List String} : maxKey ks = none ↔ ks = [] := by
  cases ks <;> simp [maxKey]

theorem maxKey_mem : ∀ {ks : List String} {m : String}, maxKey ks = some m → m ∈ ks := by
  intro ks
  induction ks with
  | nil => intro m h; simp [maxKey] at h
  | cons k t ih =>
    intro m h
    rw [maxKey] at h
    cases ht : maxKey t with
    | none =>
      rw [ht] at h
      simp only [Option.some_inj] at h
      exact h ▸ List.mem_cons_self _ _
    | some m' =>
      rw [ht] at h
      simp only [Option.some_inj] at h
      by_cases hc : strLt m' k = true
      · rw [if_pos hc] at h
        exact h ▸ List.mem_cons_self _ _
      · rw [if_neg hc] at h
        exact List.mem_cons_of_mem _ (h ▸ ih ht)

theorem maxKey_not_lt : ∀ {ks : List String} {m : String}, maxKey ks = some m →
    ∀ k ∈ ks, strLt m k = false := by
  intro ks
  induction ks with
  | nil => intro m h; simp [maxKey] at h
  | cons k t ih =>
    intro m h x hx
    rw [maxKey] at h
    cases ht : maxKey t with
    | none =>
      have hte : t = [] := maxKey_eq_none.mp ht
      rw [ht] at h
      simp only [Option.some_inj] at h
      subst hte
      have hxk : x = k := List.mem_singleton.mp hx
      rw [hxk, ← h]
      exact charListLt_irrefl _
    | some m' =>
      rw [ht] at h
      simp only [Option.some_inj] at h
      rcases List.mem_cons.mp hx with hxk | hxt
      · by_cases hc : strLt m' k = true
        · rw [if_pos hc] at h
          rw [← h, hxk]
          exact charListLt_irrefl _
        · rw [if_neg hc] at h
          rw [← h, hxk]
          simpa using hc
      · by_cases hc : strLt m' k = true
        · rw [if_pos hc] at h
          subst h
          have hm' := ih ht x hxt
          by_cases hkx : strLt k x = true
          · have htr := charListLt_trans hc hkx
            rw [show charListLt m'.data x.data = strLt m' x from rfl, hm'] at htr
            exact absurd htr (by simp)
          · simpa using hkx
        · rw [if_neg hc] at h
          exact h ▸ ih ht x hxt

/-! ## Lemmas: batch key generation -/

theorem mapWithIndex_length {α β : Type} (f : Nat → α → β) (i : Nat) (l : List α) :
    (mapWithIndex f i l).length = l.length := by
  induction l generalizing i with
  | nil => rfl
  | cons a t ih => simp [mapWithIndex, ih]

theorem mem_mapWithIndex {α β : Type} [Inhabited α] {f : Nat → α → β} {x : β} :
    ∀ {i : Nat} {l : List α}, x ∈ mapWithIndex f i l →
      ∃ j, j < l.length ∧ x = f (i + j) (l.getD j default) := by
  intro i l
  induction l generalizing i with
  | nil => intro h; simp [mapWithIndex] at h
  | cons a t ih =>
    intro h
    rcases List.mem_cons.mp h with he | ht
    · exact ⟨0, by simp, by simpa using he⟩
    · rcases ih ht with ⟨j, hj, hx⟩
      exact ⟨j + 1, by simpa using hj, by simpa [Nat.add_assoc, Nat.add_comm 1 j] using hx⟩

theorem nodup_mapWithIndex {α β : Type} [Inhabited α] (f : Nat → α → β) :
    ∀ (i : Nat) (l : List α),
      (∀ j₁ j₂, j₁ < l.length → j₂ < l.length → j₁ ≠ j₂ →
        f (i + j₁) (l.getD j₁ default) ≠ f (i + j₂) (l.getD j₂ default)) →
      (mapWithIndex f i l).Nodup := by
  intro i l
  induction l generalizing i with
  | nil => intro _; simp [mapWithIndex]
  | cons a t ih =>
    intro h
    rw [mapWithIndex]
    refine List.nodup_cons.mpr ⟨?_, ?_⟩
    · intro hmem
      rcases mem_mapWithIndex hmem with ⟨j, hj, hx⟩
      refine h 0 (j + 1) (by simp) (by simpa using hj) (by omega) ?_
      simpa [Nat.add_assoc, Nat.add_comm 1 j] using hx
    · refine ih (i + 1) ?_
      intro j₁ j₂ hj₁ hj₂ hne
      have := h (j₁ + 1) (j₂ + 1) (by simpa using hj₁) (by simpa using hj₂) (by omega)
      simpa [Nat.add_assoc, Nat.add_comm 1 _] using this

/-! ## Lemmas: the dispatch flow -/

/-- The statuses a list of mutations writes, in order. -/
def statusesOf (evts : List UploadEvent) : List Status :=
  evts.filterMap fun e =>
    match e with
    | UploadEvent.setStatus st _ => some st
    | UploadEvent.setFile _ _ => none

theorem statusTrace_eq (r : FileUpload) (evts : List UploadEvent) :
    statusTrace r evts = r.status :: statusesOf evts := rfl

theorem statusesOf_presigned (e : PresignedEnv) :
    statusesOf (presignedEvents e) = [] ∨
    statusesOf (presignedEvents e) = [Status.error] ∨
    statusesOf (presignedEvents e) = [Status.success] := by
  unfold presignedEvents
  cases e.scry with
  | error m => left; rfl
  | ok tok =>
    cases e.put with
    | error m => right; left; rfl
    | ok resp =>
      dsimp only
      by_cases h2 : resp.status ≠ 200
      · rw [if_pos h2]
        right; left; rfl
      · rw [if_neg h2]
        cases e.getUrl with
        | error m => right; left; rfl
        | ok u =>
          cases e.size with
          | error m => right; right; rfl
          | ok s => right; right; rfl

theorem statusesOf_cred (cfg : StorageConfiguration) (key : String) (e : CredEnv) :
    statusesOf (credEvents cfg key e) = [] ∨
    statusesOf (credEvents cfg key e) = [Status.error] ∨
    statusesOf (credEvents cfg key e) = [Status.success] := by
  unfold credEvents
  by_cases hpub : cfg.publicUrlBase ≠ ""
  · rw [if_pos hpub]
    cases e.send with
    | error m => right; left; rfl
    | ok u =>
      cases e.size with
      | error m => right; right; rfl
      | ok s => right; right; rfl
  · rw [if_neg hpub]
    cases e.signedUrl with
    | error m => left; rfl
    | ok u =>
      cases e.send with
      | error m => right; left; rfl
      | ok v =>
        cases e.size with
        | error m => right; right; rfl
        | ok s => right; right; rfl

theorem uploadEvents_presigned (client : Option S3Client) (cfg : StorageConfiguration)
    (key : String) (env : UploadEnv) (h1 : cfg.service = "presigned-url")
    (h2 : cfg.presignedUrl ≠ "") :
    uploadEvents client cfg key env =
      UploadEvent.setStatus Status.loading none :: presignedEvents env.pre := by
  unfold uploadEvents
  rw [if_pos ⟨h1, h2⟩, if_neg fun hcon => absurd (h1.symm.trans hcon.1) (by decide),
    List.append_nil]

theorem uploadEvents_cred (client : Option S3Client) (cfg : StorageConfiguration)
    (key : String) (env : UploadEnv) (h1 : cfg.service = "credentials")
    (h2 : client.isSome) :
    uploadEvents client cfg key env =
      UploadEvent.setStatus Status.loading none :: credEvents cfg key env.cred := by
  unfold uploadEvents
  rw [if_neg fun hcon => absurd (h1.symm.trans hcon.1) (by decide), if_pos ⟨h1, h2⟩,
    List.nil_append]

theorem uploadEvents_skip (client : Option S3Client) (cfg : StorageConfiguration)
    (key : String) (env : UploadEnv)
    (h1 : ¬ (cfg.service = "presigned-url" ∧ cfg.presignedUrl ≠ ""))
    (h2 : ¬ (cfg.service = "credentials" ∧ client.isSome = true)) :
    uploadEvents client cfg key env = [UploadEvent.setStatus Status.loading none] := by
  unfold uploadEvents
  rw [if_neg h1, if_neg h2, List.append_nil]

theorem applyEvent_success (r : FileUpload) :
    applyEvent r (UploadEvent.setStatus Status.success none) =
      { r with status := Status.success } := rfl

theorem applyEvent_loading (r : FileUpload) :
    applyEvent r (UploadEvent.setStatus Status.loading none) =
      { r with status := Status.loading } := rfl

theorem applyEvent_error (r : FileUpload) {m : String} (hm : m ≠ "") :
    applyEvent r (UploadEvent.setStatus Status.error (some m)) =
      { r with status := Status.error, errorMessage := some m } := by
  simp [applyEvent, hm]

/-- The Tlon-prefixed message is never the JS-falsy empty string. -/
theorem tlonMsg_ne (m : String) :
    "Tlon Hosting upload error: " ++ m ++ ", contact support if it persists." ≠ "" := by
  intro h
  have h' := congrArg String.length h
  rw [String.length_append, String.length_append] at h'
  have h1 : ("Tlon Hosting upload error: " : String).length = 27 := by decide
  have h2 : (", contact support if it persists." : String).length = 33 := by decide
  have h0 : ("" : String).length = 0 := by decide
  rw [h1, h2, h0] at h'
  omega

/-- The S3-prefixed message is never the JS-falsy empty string. -/
theorem s3Msg_ne (m : String) :
    "S3 upload error: " ++ m ++ ", check your S3 configuration." ≠ "" := by
  intro h
  have h' := congrArg String.length h
  rw [String.length_append, String.length_append] at h'
  have h1 : ("S3 upload error: " : String).length = 17 := by decide
  have h2 : (", check your S3 configuration." : String).length = 30 := by decide
  have h0 : ("" : String).length = 0 := by decide
  rw [h1, h2, h0] at h'
  omega

/-- The URL the dispatch would write on success: the file-url GET's body
for the `presigned-url` strategy, the `publicUrlBase` join or the
query-stripped signed URL for the `credentials` strategy. -/
def dispatchUrl (client : Option S3Client) (cfg : StorageConfiguration)
    (key : String) (env : UploadEnv) : String :=
  if cfg.service = "presigned-url" ∧ cfg.presignedUrl ≠ "" then
    match env.pre.getUrl with
    | Except.ok u => u
    | Except.error _ => ""
  else if cfg.service = "credentials" ∧ client.isSome then
    match (if cfg.publicUrlBase ≠ "" then Except.ok (urlResolve key cfg.publicUrlBase)
           else env.cred.signedUrl.map stripQuery) with
    | Except.ok u => u
    | Except.error _ => ""
  else ""

theorem setFile_mem_presigned {e : PresignedEnv} {u : String} {sz : Nat × Nat}
    (h : UploadEvent.setFile u sz ∈ presignedEvents e) :
    ∃ fileUrl, e.getUrl = Except.ok fileUrl ∧ u = fileUrl := by
  unfold presignedEvents at h
  cases hscry : e.scry with
  | error m => rw [hscry] at h; simp at h
  | ok tok =>
    rw [hscry] at h
    cases hput : e.put with
    | error m => rw [hput] at h; simp at h
    | ok resp =>
      rw [hput] at h
      dsimp only at h
      by_cases h2 : resp.status ≠ 200
      · rw [if_pos h2] at h
        simp at h
      · rw [if_neg h2] at h
        cases hg : e.getUrl with
        | error m => rw [hg] at h; simp at h
        | ok fileUrl =>
          rw [hg] at h
          cases hsz : e.size with
          | error m => rw [hsz] at h; simp at h
          | ok s =>
            rw [hsz] at h
            simp at h
            exact ⟨fileUrl, rfl, h.1⟩

theorem setFile_mem_cred {cfg : StorageConfiguration} {key : String} {e : CredEnv}
    {u : String} {sz : Nat × Nat} (h : UploadEvent.setFile u sz ∈ credEvents cfg key e) :
    ∃ url, (if cfg.publicUrlBase ≠ "" then Except.ok (urlResolve key cfg.publicUrlBase)
            else e.signedUrl.map stripQuery) = Except.ok url ∧ u = url := by
  unfold credEvents at h
  cases hu : (if cfg.publicUrlBase ≠ "" then Except.ok (urlResolve key cfg.publicUrlBase)
              else e.signedUrl.map stripQuery) with
  | error m => rw [hu] at h; simp at h
  | ok url =>
    rw [hu] at h
    cases hsend : e.send with
    | error m => rw [hsend] at h; simp at h
    | ok v =>
      rw [hsend] at h
      cases hsz : e.size with
      | error m => rw [hsz] at h; simp at h
      | ok s =>
        rw [hsz] at h
        simp at h
        exact ⟨url, rfl, h.1⟩

theorem applyEvent_setStatus_url (r : FileUpload) (st : Status) (msg : Option String) :
    (applyEvent r (UploadEvent.setStatus st msg)).url = r.url := by
  unfold applyEvent
  dsimp only
  by_cases h : st = Status.error
  · rw [if_pos h]
    cases msg with
    | none => rfl
    | some m =>
      dsimp only
      by_cases hm : m = ""
      · rw [if_pos hm]
      · rw [if_neg hm]
  · rw [if_neg h]

/-- Every observed state's `url` is either still the seeded one or was
written by some `setFile` mutation of the dispatch. -/
theorem observed_url {r : FileUpload} {evts : List UploadEvent} :
    ∀ r' ∈ observedStates r evts,
      r'.url = r.url ∨ ∃ sz, UploadEvent.setFile r'.url sz ∈ evts := by
  induction evts generalizing r with
  | nil =>
    intro r' h
    simp [observedStates, List.scanl] at h
    left
    rw [h]
  | cons e t ih =>
    intro r' h
    simp only [observedStates, List.scanl, List.mem_cons] at h
    rcases h with h | h
    · left; rw [h]
    · rcases ih r' h with hurl | ⟨sz, hmem⟩
      · cases e with
        | setStatus st msg =>
          left
          rw [hurl]
          exact applyEvent_setStatus_url r st msg
        | setFile u sz =>
          right
          refine ⟨sz, ?_⟩
          have : (applyEvent r (UploadEvent.setFile u sz)).url = u := rfl
          rw [hurl, this]
          exact List.mem_cons_self _ _
      · exact Or.inr ⟨sz, List.mem_cons_of_mem _ hmem⟩

/-! ## Further support lemmas -/

theorem strLt_ne {a b : String} (h : strLt a b = true) : a ≠ b :=
  fun he => charListLt_ne h (congrArg String.data he)

theorem alistGet_isSome_of_mem {α : Type} :
    ∀ {l : List (String × α)} {k : String}, k ∈ l.map Prod.fst →
      ∃ v, alistGet l k = some v := by
  intro l
  induction l with
  | nil => intro k h; simp at h
  | cons kw t ih =>
    intro k h
    rw [List.map_cons, List.mem_cons] at h
    by_cases hk : kw.1 = k
    · exact ⟨kw.2, by rw [alistGet, if_pos hk]⟩
    · rcases h with he | ht
      · exact absurd he.symm hk
      · rcases ih ht with ⟨v, hv⟩
        exact ⟨v, by rw [alistGet, if_neg hk]; exact hv⟩

theorem seedKeys_eq (ship : String) (clock : Nat → Nat) (files : List JSFile) :
    seedKeys ship clock files =
      mapWithIndex (fun i f => mkKey ship (clock i) f.name) 0 files := by
  unfold seedKeys seedFileList
  generalize 0 = i
  induction files generalizing i with
  | nil => rfl
  | cons f t ih =>
    simp only [mapWithIndex, List.map_cons]
    rw [ih]
    rfl

/-- Invariant of the client cache: the construction counter is `1` when a
client exists and `0` before. -/
theorem useClientRun_inv :
    ∀ (envs : List ClientEnv) (s : ClientCacheState),
      s.constructions = (if s.client.isSome then 1 else 0) →
      (useClientRun s envs).constructions =
        (if (useClientRun s envs).client.isSome then 1 else 0) := by
  intro envs
  induction envs with
  | nil => intro s h; exact h
  | cons env t ih =>
    intro s h
    refine ih _ ?_
    unfold useClientStep
    by_cases hc : (s.hasCredentials || envHasCreds env) && s.client.isNone
    · rw [if_pos hc]
      cases henv : env.credentials with
      | none => simpa using h
      | some c =>
        have : s.client.isNone = true := (Bool.and_eq_true_iff.mp hc).2
        have hnone : s.client = none := Option.isNone_iff_eq_none.mp this
        simp [hnone] at h
        simp [h]
    · rw [if_neg hc]
      simpa using h

/-- C3: the literal claim is false — there is no index disambiguation in
the key template, so two files sharing a filename that are mapped with
the same clock value (`new Date().getTime()` typically returns the same
millisecond throughout the synchronous `.map`) receive the same key, and
`_.keyBy` collapses them to a single record. -/
theorem C3_counterexample :
    ¬ (seedKeys "zod" (fun _ => 1000)
        [⟨"a.png", "image/png", 3⟩, ⟨"a.png", "image/png", 3⟩]).Nodup ∧
    (insertAll [] (seedFileList "zod" (fun _ => 1000)
        [⟨"a.png", "image/png", 3⟩, ⟨"a.png", "image/png", 3⟩])).length = 1 := by
  decide

/-- C3 (amended): within a batch, the generated keys are pairwise
distinct provided any two files sharing a filename are assigned distinct
timestamps by the per-file clock; a key is determined by (timestamp,
filename), with no index component. -/
theorem C3_keys_unique :
    ∀ (ship : String) (clock : Nat → Nat) (files : List JSFile),
      (∀ i, i < files.length → clock i < 10 ^ 20) →
      (∀ i j, i < files.length → j < files.length → i ≠ j →
        (files.getD i default).name = (files.getD j default).name →
        clock i ≠ clock j) →
      (seedKeys ship clock files).Nodup := by
  intro ship clock files hb hdist
  rw [seedKeys_eq]
  refine nodup_mapWithIndex _ 0 files ?_
  intro j₁ j₂ hj₁ hj₂ hne
  simp only [Nat.zero_add]
  by_cases hname : (files.getD j₁ default).name = (files.getD j₂ default).name
  · exact mkKey_ne ship _ _ (hb j₁ hj₁) (hb j₂ hj₂)
      (Or.inl (hdist j₁ j₂ hj₁ hj₂ hne hname))
  · exact mkKey_ne ship _ _ (hb j₁ hj₁) (hb j₂ hj₂) (Or.inr hname)

/-- Witness for C3 (amended) at a concrete batch: two same-named files
with distinct per-call timestamps get distinct keys. -/
theorem C3_witness :
    (∀ i, i < ([⟨"a.png", "image/png", 3⟩,
        ⟨"a.png", "image/png", 3⟩] : List JSFile).length → 1000 + i < 10 ^ 20) ∧
    (seedKeys "zod" (fun i => 1000 + i)
        [⟨"a.png", "image/png", 3⟩, ⟨"a.png", "image/png", 3⟩]).Nodup :=
  ⟨fun i hi => by
     have h2 : i < 2 := by simpa using hi
     have h20 : (10 : Nat) ^ 20 = 100000000000000000000 := by norm_num
     rw [h20]
     omega,
   C3_keys_unique "zod" (fun i => 1000 + i) _
     (fun i hi => by
       have h2 : i < 2 := by simpa using hi
       have h20 : (10 : Nat) ^ 20 = 100000000000000000000 := by norm_num
       show 1000 + i < 10 ^ 20
       rw [h20]
       omega)
     (fun i j _ _ hne _ => by
       intro hEq
       have hEq' : 1000 + i = 1000 + j := hEq
       omega)⟩

/-- C8: the literal claim is false for `u = ""` — a not-yet-successful
record stores its pending remote url as the empty string, and
`removeByURL(uploader, "")` removes exactly those records. -/
theorem C8_counterexample :
    removeByURL
      { client := none,
        uploaders := [("chat", ⟨[("k1",
          { file := ⟨"a.png", "image/png", 3⟩, key := "k1",
            status := Status.loading, url := "", size := (0, 0) })]⟩)] }
      "chat" ""
      = some { client := none, uploaders := [("chat", ⟨[]⟩)] } := by decide

/-- C8 (amended): `removeByURL` keeps exactly the records whose `url`
differs from `u`; records with the empty (pending) `url` are preserved
for every non-empty `u`, and removed exactly when `u` is the empty
string. -/
theorem C8_removeByURL_filters :
    ∀ (s : FileStore) (uploader : String) (up : UploaderState) (u : String),
      alistGet s.uploaders uploader = some up →
      ∃ s' up', removeByURL s uploader u = some s' ∧
        alistGet s'.uploaders uploader = some up' ∧
        (∀ k r, (k, r) ∈ up'.files ↔ ((k, r) ∈ up.files ∧ r.url ≠ u)) ∧
        (u ≠ "" → ∀ k r, (k, r) ∈ up.files → r.url = "" → (k, r) ∈ up'.files) := by
  intro s uploader up u hget
  refine
    ⟨{ s with
        uploaders := alistSet s.uploaders uploader
          (UploaderState.mk (up.files.filter (fun kf => kf.2.url ≠ u))) },
      UploaderState.mk (up.files.filter (fun kf => kf.2.url ≠ u)), ?_, ?_, ?_, ?_⟩
  · unfold removeByURL
    rw [hget]
  · exact alistGet_set_self _ _ _
  · intro k r
    constructor
    · intro hm
      have hf := List.mem_filter.mp hm
      exact ⟨hf.1, by simpa using hf.2⟩
    · intro hm
      exact List.mem_filter.mpr ⟨hm.1, by simpa using hm.2⟩
  · intro hu k r hm hurl
    refine List.mem_filter.mpr ⟨hm, ?_⟩
    simp only [hurl, decide_eq_true_eq]
    exact fun he => hu he.symm

/-- Witness for C8 (amended) at a concrete store: with `u` a real url,
the matching record is removed and the pending (empty-url) record is
kept. -/
theorem C8_witness :
    alistGet
      ({ client := none,
         uploaders := [("chat", ⟨[
           ("k1", { file := ⟨"a.png", "image/png", 3⟩, key := "k1",
                    status := Status.success, url := "https://cdn.example/a.png",
                    size := (1, 1) }),
           ("k2", { file := ⟨"b.png", "image/png", 4⟩, key := "k2",
                    status := Status.loading, url := "", size := (0, 0) })]⟩)] }
        : FileStore).uploaders "chat" = some ⟨[
           ("k1", { file := ⟨"a.png", "image/png", 3⟩, key := "k1",
                    status := Status.success, url := "https://cdn.example/a.png",
                    size := (1, 1) }),
           ("k2", { file := ⟨"b.png", "image/png", 4⟩, key := "k2",
                    status := Status.loading, url := "", size := (0, 0) })]⟩ ∧
    ∃ s' up',
      removeByURL
        { client := none,
          uploaders := [("chat", ⟨[
            ("k1", { file := ⟨"a.png", "image/png", 3⟩, key := "k1",
                     status := Status.success, url := "https://cdn.example/a.png",
                     size := (1, 1) }),
            ("k2", { file := ⟨"b.png", "image/png", 4⟩, key := "k2",
                     status := Status.loading, url := "", size := (0, 0) })]⟩)] }
        "chat" "https://cdn.example/a.png" = some s' ∧
      alistGet s'.uploaders "chat" = some up' ∧
      (∀ k r, (k, r) ∈ up'.files ↔
        ((k, r) ∈ ([
           ("k1", { file := ⟨"a.png", "image/png", 3⟩, key := "k1",
                    status := Status.success, url := "https://cdn.example/a.png",
                    size := (1, 1) }),
           ("k2", { file := ⟨"b.png", "image/png", 4⟩, key := "k2",
                    status := Status.loading, url := "", size := (0, 0) })] :
          List (String × FileUpload)) ∧ r.url ≠ "https://cdn.example/a.png")) ∧
      ("https://cdn.example/a.png" ≠ "" → ∀ k r,
        (k, r) ∈ ([
           ("k1", { file := ⟨"a.png", "image/png", 3⟩, key := "k1",
                    status := Status.success, url := "https://cdn.example/a.png",
                    size := (1, 1) }),
           ("k2", { file := ⟨"b.png", "image/png", 4⟩, key := "k2",
                    status := Status.loading, url := "", size := (0, 0) })] :
          List (String × FileUpload)) → r.url = "" → (k, r) ∈ up'.files) :=
  ⟨by decide, C8_removeByURL_filters _ "chat" _ _ (by decide)⟩

/-- C9: `getMostRecent` returns absent for an absent uploader or an empty
`files` mapping; otherwise it returns the record bound at the
lexicographically greatest key; and for a batch of two files submitted
with an earlier and a later timestamp, it returns the later file's
record. -/
theorem C9_getMostRecent :
    (∀ (s : FileStore) (key : String),
       alistGet s.uploaders key = none → getMostRecent s key = none) ∧
    (∀ (s : FileStore) (key : String) (up : UploaderState),
       alistGet s.uploaders key = some up → up.files = [] →
       getMostRecent s key = none) ∧
    (∀ (s : FileStore) (key : String) (up : UploaderState),
       alistGet s.uploaders key = some up →
       ∀ k r, (k, r) ∈ up.files →
       ∃ m rm, getMostRecent s key = some rm ∧ (m, rm) ∈ up.files ∧
         m ∈ up.files.map Prod.fst ∧
         (∀ k' ∈ up.files.map Prod.fst, strLt m k' = false)) ∧
    (∀ (ship : String) (ta tb : Nat) (fa fb : JSFile) (s₀ : FileStore)
       (uploader : String),
       alistGet s₀.uploaders uploader = some (UploaderState.mk []) →
       ta < tb → tb < 10 ^ 20 →
       ∃ s₁, uploadFilesSeed s₀ uploader ship
           (fun i => if i = 0 then ta else tb) [fa, fb] = some s₁ ∧
         getMostRecent s₁ uploader = some (seedRecord ship tb fb).2) := by
  refine ⟨?_, ?_, ?_, ?_⟩
  · intro s key h
    unfold getMostRecent
    rw [h]
  · intro s key up h hempty
    unfold getMostRecent
    rw [h]
    dsimp only
    rw [hempty]
    rfl
  · intro s key up h k r hmem
    have hk : k ∈ up.files.map Prod.fst := List.mem_map_of_mem Prod.fst hmem
    cases hmk : maxKey (up.files.map Prod.fst) with
    | none =>
      rw [maxKey_eq_none.mp hmk] at hk
      simp at hk
    | some m =>
      have hmem_m : m ∈ up.files.map Prod.fst := maxKey_mem hmk
      rcases alistGet_isSome_of_mem hmem_m with ⟨rm, hrm⟩
      refine ⟨m, rm, ?_, alistGet_mem hrm, hmem_m, maxKey_not_lt hmk⟩
      unfold getMostRecent
      rw [h]
      dsimp only
      rw [hmk]
      exact hrm
  · intro ship ta tb fa fb s₀ uploader h₀ hab hb
    have hlt : strLt (mkKey ship ta fa.name) (mkKey ship tb fb.name) = true :=
      mkKey_lt ship fa.name fb.name hab hb
    have hne : mkKey ship ta fa.name ≠ mkKey ship tb fb.name := strLt_ne hlt
    have hasym : strLt (mkKey ship tb fb.name) (mkKey ship ta fa.name) = false :=
      charListLt_asymm hlt
    have hseed : seedFileList ship (fun i => if i = 0 then ta else tb) [fa, fb] =
        [(mkKey ship ta fa.name, (seedRecord ship ta fa).2),
         (mkKey ship tb fb.name, (seedRecord ship tb fb).2)] := rfl
    have h1 : insertAll []
        [(mkKey ship ta fa.name, (seedRecord ship ta fa).2),
         (mkKey ship tb fb.name, (seedRecord ship tb fb).2)] =
        [(mkKey ship ta fa.name, (seedRecord ship ta fa).2),
         (mkKey ship tb fb.name, (seedRecord ship tb fb).2)] := by
      simp [insertAll, alistSet, hne]
    have hfiles : uploadFilesSeed s₀ uploader ship
        (fun i => if i = 0 then ta else tb) [fa, fb] =
        some { s₀ with
               uploaders := alistSet s₀.uploaders uploader
                 (UploaderState.mk
                   [(mkKey ship ta fa.name, (seedRecord ship ta fa).2),
                    (mkKey ship tb fb.name, (seedRecord ship tb fb).2)]) } := by
      unfold uploadFilesSeed
      rw [h₀, hseed]
      dsimp only
      rw [h1, h1]
    refine ⟨_, hfiles, ?_⟩
    unfold getMostRecent
    rw [alistGet_set_self]
    dsimp only
    have hmax : maxKey
        (([(mkKey ship ta fa.name, (seedRecord ship ta fa).2),
           (mkKey ship tb fb.name, (seedRecord ship tb fb).2)] :
          List (String × FileUpload)).map Prod.fst) = some (mkKey ship tb fb.name) := by
      simp [maxKey, hasym]
    rw [hmax]
    simp [alistGet, hne]

/-- Witness for C9 at a concrete store and batch: file `a.png` at
timestamp 5, file `b.png` at timestamp 7 — `getMostRecent` returns
`b.png`'s record. -/
theorem C9_witness :
    alistGet ({ client := none, uploaders := [("u", UploaderState.mk [])] }
        : FileStore).uploaders "u" = some (UploaderState.mk []) ∧
    (5 : Nat) < 7 ∧ (7 : Nat) < 10 ^ 20 ∧
    (∃ s₁, uploadFilesSeed { client := none, uploaders := [("u", UploaderState.mk [])] }
        "u" "zod" (fun i => if i = 0 then 5 else 7)
        [⟨"a.png", "image/png", 3⟩, ⟨"b.png", "image/png", 4⟩] = some s₁ ∧
      getMostRecent s₁ "u" = some (seedRecord "zod" 7 ⟨"b.png", "image/png", 4⟩).2) :=
  ⟨by decide, by decide, by decide,
   C9_getMostRecent.2.2.2 "zod" 5 7 ⟨"a.png", "image/png", 3⟩
     ⟨"b.png", "image/png", 4⟩ _ "u" (by decide) (by decide) (by decide)⟩

/-- C10: `updateStatus` writes through `files[fileKey].status` unguarded,
so it is well-defined exactly when the record is present; with the record
absent (e.g. after `clear` emptied the mapping while the dispatch was in
flight) the access faults. -/
theorem C10_updateStatus_requires_record :
    (∀ (s : FileStore) (uploader fileKey : String) (up : UploaderState)
       (st : Status) (msg : Option String),
       alistGet s.uploaders uploader = some up →
       alistGet up.files fileKey = none →
       updateStatus s uploader fileKey st msg = none) ∧
    (∀ (s : FileStore) (uploader fileKey : String) (up : UploaderState)
       (r : FileUpload) (st : Status) (msg : Option String),
       alistGet s.uploaders uploader = some up →
       alistGet up.files fileKey = some r →
       (updateStatus s uploader fileKey st msg).isSome = true) := by
  constructor
  · intro s uploader fileKey up st msg h1 h2
    unfold updateStatus
    rw [h1]
    dsimp only
    rw [h2]
  · intro s uploader fileKey up r st msg h1 h2
    unfold updateStatus
    rw [h1]
    dsimp only
    rw [h2]
    rfl

/-- Witness for C10: the faulting branch is reachable — seed one file
into an uploader, `clear` it (modelling a clear racing an in-flight
dispatch), and the completion callback's `updateStatus` then hits an
absent record and faults. -/
theorem C10_witness :
    ((uploadFilesSeed { client := none, uploaders := [("chat", UploaderState.mk [])] }
        "chat" "zod" (fun _ => 5) [⟨"a.png", "image/png", 3⟩]).bind
      (fun s => clear s "chat")) =
      some { client := none, uploaders := [("chat", UploaderState.mk [])] } ∧
    updateStatus { client := none, uploaders := [("chat", UploaderState.mk [])] }
      "chat" (mkKey "zod" 5 "a.png") Status.success none = none :=
  ⟨by decide,
   C10_updateStatus_requires_record.1 _ "chat" (mkKey "zod" 5 "a.png")
     (UploaderState.mk []) Status.success none (by decide) (by decide)⟩

/-- C4: the literal claim is false — `useClient` constructs a client only
under `hasCredentials && !client`, so once a client exists a changed
credential set does not replace it: after inputs with credentials A and
then B, the cached client is still the one built from A. -/
theorem C4_counterexample :
    (useClientRun { client := none, hasCredentials := false, constructions := 0 }
      [⟨"credentials", some ⟨"s3.example", "AKIA", "secretA"⟩, "r1"⟩,
       ⟨"credentials", some ⟨"s3.example", "AKIB", "secretB"⟩, "r1"⟩]).client =
      some (createClient ⟨"s3.example", "AKIA", "secretA"⟩ "r1") ∧
    (⟨"s3.example", "AKIB", "secretB"⟩ : StorageCredentials) ≠
      ⟨"s3.example", "AKIA", "secretA"⟩ ∧
    envHasCreds ⟨"credentials", some ⟨"s3.example", "AKIB", "secretB"⟩, "r1"⟩ = true ∧
    (useClientRun { client := none, hasCredentials := false, constructions := 0 }
      [⟨"credentials", some ⟨"s3.example", "AKIA", "secretA"⟩, "r1"⟩,
       ⟨"credentials", some ⟨"s3.example", "AKIB", "secretB"⟩, "r1"⟩]).client ≠
      some (createClient ⟨"s3.example", "AKIB", "secretB"⟩ "r1") ∧
    (useClientRun { client := none, hasCredentials := false, constructions := 0 }
      [⟨"credentials", some ⟨"s3.example", "AKIA", "secretA"⟩, "r1"⟩,
       ⟨"credentials", some ⟨"s3.example", "AKIB", "secretB"⟩, "r1"⟩]).constructions
      = 1 := by decide

/-- C4 (amended): the cache is memoizing and at-most-once — once a client
exists it survives every later input unchanged with no further
construction, and any run from the empty initial state performs at most
one construction (so two submissions sharing one credential set construct
exactly one client); but a changed credential set does not recreate the
client. -/
theorem C4_client_cache :
    (∀ (s : ClientCacheState) (envs : List ClientEnv) (c : S3Client),
       s.client = some c →
       (useClientRun s envs).client = some c ∧
       (useClientRun s envs).constructions = s.constructions) ∧
    (∀ envs : List ClientEnv,
       (useClientRun { client := none, hasCredentials := false, constructions := 0 }
         envs).constructions ≤ 1) := by
  constructor
  · intro s envs
    induction envs generalizing s with
    | nil => intro c h; exact ⟨h, rfl⟩
    | cons env t ih =>
      intro c h
      have hstep : useClientStep s env =
          { s with hasCredentials := s.hasCredentials || envHasCreds env } := by
        unfold useClientStep
        rw [if_neg (by rw [h]; simp)]
      rw [useClientRun, hstep]
      exact ih _ c h
  · intro envs
    have h := useClientRun_inv envs
      { client := none, hasCredentials := false, constructions := 0 } rfl
    rw [h]
    split <;> omega

/-- Witness for C4 (amended) at a concrete cached client and a later
input carrying different credentials: the client and the construction
count are unchanged. -/
theorem C4_witness :
    ({ client := some (createClient ⟨"s3.example", "AKIA", "secretA"⟩ "r1"),
       hasCredentials := true, constructions := 1 } : ClientCacheState).client =
      some (createClient ⟨"s3.example", "AKIA", "secretA"⟩ "r1") ∧
    (useClientRun
        { client := some (createClient ⟨"s3.example", "AKIA", "secretA"⟩ "r1"),
          hasCredentials := true, constructions := 1 }
        [⟨"credentials", some ⟨"s3.example", "AKIB", "secretB"⟩, "r1"⟩]).client =
      some (createClient ⟨"s3.example", "AKIA", "secretA"⟩ "r1") ∧
    (useClientRun
        { client := some (createClient ⟨"s3.example", "AKIA", "secretA"⟩ "r1"),
          hasCredentials := true, constructions := 1 }
        [⟨"credentials", some ⟨"s3.example", "AKIB", "secretB"⟩, "r1"⟩]).constructions
      = 1 :=
  ⟨rfl,
   (C4_client_cache.1 _ _ _ rfl).1,
   (C4_client_cache.1 _ _ _ rfl).2⟩

/-- C5: the literal claim is false — the `useUploader` effect assigns
`draft.uploaders[key] = emptyUploader(key, configuration)` without
checking for an existing uploader, so re-invoking it for a key whose
uploader already holds files replaces that uploader with a fresh empty
one. -/
theorem C5_counterexample :
    alistGet (useUploaderEffect
        { client := none,
          uploaders := [("chat", UploaderState.mk
            [("k", { file := ⟨"a.png", "image/png", 3⟩, key := "k",
                     status := Status.success, url := "https://cdn.example/a.png",
                     size := (1, 1) })])] }
        "chat" { service := "presigned-url", presignedUrl := "https://proxy.example" }
        false).uploaders "chat" = some (UploaderState.mk []) ∧
    UploaderState.mk
        [("k", { file := ⟨"a.png", "image/png", 3⟩, key := "k",
                 status := Status.success, url := "https://cdn.example/a.png",
                 size := (1, 1) })] ≠ UploaderState.mk [] := by decide

/-- C5 (amended): when the prerequisites hold (live client for
`credentials`, non-empty proxy url for `presigned-url`) the effect
installs a fresh empty uploader at the key — also when one already
exists, discarding its files; when they fail the store is unchanged and
no uploader is created. -/
theorem C5_useUploader :
    ∀ (s : FileStore) (key : String) (cfg : StorageConfiguration) (cp : Bool),
      (uploaderPrereq cp cfg = true →
        useUploaderEffect s key cfg cp =
          { s with uploaders := alistSet s.uploaders key (UploaderState.mk []) } ∧
        alistGet (useUploaderEffect s key cfg cp).uploaders key =
          some (UploaderState.mk [])) ∧
      (uploaderPrereq cp cfg = false → useUploaderEffect s key cfg cp = s) := by
  intro s key cfg cp
  constructor
  · intro h
    constructor
    · unfold useUploaderEffect
      rw [if_pos h]
    · unfold useUploaderEffect
      rw [if_pos h]
      exact alistGet_set_self _ _ _
  · intro h
    unfold useUploaderEffect
    rw [if_neg (by rw [h]; simp)]

/-- Witness for C5 (amended) at a concrete store whose uploader already
holds a record: the prerequisites hold and the effect resets the
uploader to an empty files mapping. -/
theorem C5_witness :
    uploaderPrereq false
      { service := "presigned-url", presignedUrl := "https://proxy.example" } = true ∧
    alistGet (useUploaderEffect
        { client := none,
          uploaders := [("chat", UploaderState.mk
            [("k2", { file := ⟨"b.png", "image/png", 4⟩, key := "k2",
                      status := Status.loading, url := "", size := (0, 0) })])] }
        "chat" { service := "presigned-url", presignedUrl := "https://proxy.example" }
        false).uploaders "chat" = some (UploaderState.mk []) :=
  ⟨by decide,
   ((C5_useUploader
      { client := none,
        uploaders := [("chat", UploaderState.mk
          [("k2", { file := ⟨"b.png", "image/png", 4⟩, key := "k2",
                    status := Status.loading, url := "", size := (0, 0) })])] }
      "chat" { service := "presigned-url", presignedUrl := "https://proxy.example" }
      false).1 (by decide)).2⟩

/-- The mutation sequences two concurrent asynchronous tasks can apply to
one shared record: any interleaving of their individual event lists
(each dispatch's own writes stay in order; writes of different dispatches
commute freely, as each `await` is a suspension point). -/
inductive Interleaving {α : Type} : List α → List α → List α → Prop
  | nil : Interleaving [] [] []
  | left {a : α} {as bs cs : List α} :
      Interleaving as bs cs → Interleaving (a :: as) bs (a :: cs)
  | right {b : α} {as bs cs : List α} :
      Interleaving as bs cs → Interleaving as (b :: bs) (b :: cs)

/-- C6: the literal claim is false. When two files of a batch share a
filename and a millisecond, `_.keyBy` collapses them to one record
(`C3_counterexample`) while `fileList.forEach` at upload.ts:78 still
dispatches `upload` once per `fileList` element — twice, with the same
key. Both dispatches drive the same record; with divergent outcomes
(first PUT chain succeeds, second rejects) a reachable interleaving of
their writes produces the status sequence
`initial, loading, loading, success, error`: the record leaves the
terminal `success`, and the sequence is a prefix of neither allowed
lifecycle. -/
theorem C6_counterexample :
    (insertAll [] (seedFileList "zod" (fun _ => 1000)
        [⟨"a.png", "image/png", 3⟩, ⟨"a.png", "image/png", 3⟩])).length = 1 ∧
    (seedFileList "zod" (fun _ => 1000)
        [⟨"a.png", "image/png", 3⟩, ⟨"a.png", "image/png", 3⟩]).length = 2 ∧
    Interleaving
      (uploadEvents none
        { service := "presigned-url", presignedUrl := "https://proxy.example" }
        (mkKey "zod" 1000 "a.png")
        ⟨⟨Except.ok "tok", Except.ok ⟨200, ""⟩,
          Except.ok "https://bucket.example/a.png", Except.error "timeout"⟩,
         ⟨Except.ok "", Except.ok (), Except.ok (0, 0)⟩⟩)
      (uploadEvents none
        { service := "presigned-url", presignedUrl := "https://proxy.example" }
        (mkKey "zod" 1000 "a.png")
        ⟨⟨Except.ok "tok", Except.error "socket hang up", Except.ok "",
          Except.ok (0, 0)⟩,
         ⟨Except.ok "", Except.ok (), Except.ok (0, 0)⟩⟩)
      [UploadEvent.setStatus Status.loading none,
       UploadEvent.setStatus Status.loading none,
       UploadEvent.setStatus Status.success none,
       UploadEvent.setStatus Status.error (some ("Tlon Hosting upload error: " ++
         "socket hang up" ++ ", contact support if it persists."))] ∧
    statusTrace (seedRecord "zod" 1000 ⟨"a.png", "image/png", 3⟩).2
      [UploadEvent.setStatus Status.loading none,
       UploadEvent.setStatus Status.loading none,
       UploadEvent.setStatus Status.success none,
       UploadEvent.setStatus Status.error (some ("Tlon Hosting upload error: " ++
         "socket hang up" ++ ", contact support if it persists."))] =
      [Status.initial, Status.loading, Status.loading, Status.success,
       Status.error] ∧
    ¬ ([Status.initial, Status.loading, Status.loading, Status.success,
        Status.error] <+: [Status.initial, Status.loading, Status.success]) ∧
    ¬ ([Status.initial, Status.loading, Status.loading, Status.success,
        Status.error] <+: [Status.initial, Status.loading, Status.error]) := by
  refine ⟨by decide, by decide, ?_, by decide,
    fun hp => absurd hp.length_le (by decide),
    fun hp => absurd hp.length_le (by decide)⟩
  have h₁ : uploadEvents none
      { service := "presigned-url", presignedUrl := "https://proxy.example" }
      (mkKey "zod" 1000 "a.png")
      ⟨⟨Except.ok "tok", Except.ok ⟨200, ""⟩,
        Except.ok "https://bucket.example/a.png", Except.error "timeout"⟩,
       ⟨Except.ok "", Except.ok (), Except.ok (0, 0)⟩⟩ =
      [UploadEvent.setStatus Status.loading none,
       UploadEvent.setStatus Status.success none] := by decide
  have h₂ : uploadEvents none
      { service := "presigned-url", presignedUrl := "https://proxy.example" }
      (mkKey "zod" 1000 "a.png")
      ⟨⟨Except.ok "tok", Except.error "socket hang up", Except.ok "",
        Except.ok (0, 0)⟩,
       ⟨Except.ok "", Except.ok (), Except.ok (0, 0)⟩⟩ =
      [UploadEvent.setStatus Status.loading none,
       UploadEvent.setStatus Status.error (some ("Tlon Hosting upload error: " ++
         "socket hang up" ++ ", contact support if it persists."))] := by decide
  rw [h₁, h₂]
  exact Interleaving.left (Interleaving.right (Interleaving.left
    (Interleaving.right Interleaving.nil)))

/-- C6 (amended): for a record driven by a single dispatch — the case
whenever its key is owned by one `upload` call, i.e. the key is unique
in its batch — the observed status sequence is a prefix of
`initial, loading, success` or of `initial, loading, error`, for every
configuration, client state and asynchronous outcome: `loading` is
always written first, `initial` is never re-entered, and at most one
terminal status follows. (When duplicate keys collapse several
dispatches onto one record, the interleaved writes of the co-owning
dispatches can move the record out of a terminal status —
`C6_counterexample`.) -/
theorem C6_status_trace :
    ∀ (ship : String) (t : Nat) (f : JSFile) (client : Option S3Client)
      (cfg : StorageConfiguration) (env : UploadEnv),
      statusTrace (seedRecord ship t f).2
          (uploadEvents client cfg (seedRecord ship t f).1 env) <+:
        [Status.initial, Status.loading, Status.success] ∨
      statusTrace (seedRecord ship t f).2
          (uploadEvents client cfg (seedRecord ship t f).1 env) <+:
        [Status.initial, Status.loading, Status.error] := by
  intro ship t f client cfg env
  have hstat : (seedRecord ship t f).2.status = Status.initial := rfl
  by_cases h1 : cfg.service = "presigned-url" ∧ cfg.presignedUrl ≠ ""
  · rw [uploadEvents_presigned _ _ _ _ h1.1 h1.2, statusTrace_eq, hstat]
    have hcons : statusesOf (UploadEvent.setStatus Status.loading none ::
        presignedEvents env.pre) =
        Status.loading :: statusesOf (presignedEvents env.pre) := rfl
    rw [hcons]
    rcases statusesOf_presigned env.pre with h | h | h <;> rw [h]
    · exact Or.inl ⟨[Status.success], rfl⟩
    · exact Or.inr ⟨[], rfl⟩
    · exact Or.inl ⟨[], rfl⟩
  · by_cases h2 : cfg.service = "credentials" ∧ client.isSome = true
    · rw [uploadEvents_cred _ _ _ _ h2.1 h2.2, statusTrace_eq, hstat]
      have hcons : statusesOf (UploadEvent.setStatus Status.loading none ::
          credEvents cfg (seedRecord ship t f).1 env.cred) =
          Status.loading ::
            statusesOf (credEvents cfg (seedRecord ship t f).1 env.cred) := rfl
      rw [hcons]
      rcases statusesOf_cred cfg (seedRecord ship t f).1 env.cred with h | h | h <;> rw [h]
      · exact Or.inl ⟨[Status.success], rfl⟩
      · exact Or.inr ⟨[], rfl⟩
      · exact Or.inl ⟨[], rfl⟩
    · rw [uploadEvents_skip _ _ _ _ h1 h2, statusTrace_eq, hstat]
      exact Or.inl ⟨[Status.success], rfl⟩

/-- C7: in the `presigned-url` strategy a non-200 proxy response moves
the record to `error`, the message being the response body (or the
generic default when the body is empty) wrapped in the Tlon backend
prefix and suffix. -/
theorem C7_presigned_non200 :
    ∀ (client : Option S3Client) (cfg : StorageConfiguration) (key : String)
      (env : UploadEnv) (r₀ : FileUpload) (tok : String) (resp : ProxyResponse),
      cfg.service = "presigned-url" → cfg.presignedUrl ≠ "" →
      env.pre.scry = Except.ok tok → env.pre.put = Except.ok resp →
      resp.status ≠ 200 →
      (finalRecord r₀ (uploadEvents client cfg key env)).status = Status.error ∧
      (finalRecord r₀ (uploadEvents client cfg key env)).errorMessage =
        some ("Tlon Hosting upload error: " ++
          (if resp.body = "" then "Incorrect response status" else resp.body) ++
          ", contact support if it persists.") := by
  intro client cfg key env r₀ tok resp h1 h2 hscry hput h200
  rw [uploadEvents_presigned _ _ _ _ h1 h2]
  have hev : presignedEvents env.pre =
      [UploadEvent.setStatus Status.error (some ("Tlon Hosting upload error: " ++
        (if resp.body = "" then "Incorrect response status" else resp.body) ++
        ", contact support if it persists."))] := by
    unfold presignedEvents
    rw [hscry]
    dsimp only
    rw [hput]
    dsimp only
    rw [if_pos h200]
  rw [hev]
  have hfold : finalRecord r₀ [UploadEvent.setStatus Status.loading none,
      UploadEvent.setStatus Status.error (some ("Tlon Hosting upload error: " ++
        (if resp.body = "" then "Incorrect response status" else resp.body) ++
        ", contact support if it persists."))] =
      applyEvent (applyEvent r₀ (UploadEvent.setStatus Status.loading none))
        (UploadEvent.setStatus Status.error (some ("Tlon Hosting upload error: " ++
          (if resp.body = "" then "Incorrect response status" else resp.body) ++
          ", contact support if it persists."))) := rfl
  rw [hfold, applyEvent_loading, applyEvent_error _ (tlonMsg_ne _)]
  exact ⟨rfl, rfl⟩

/-- Witness for C7 at the spec's concrete scenario: the proxy PUT answers
500 with body `quota exceeded` — the record ends in `error` and the
message contains `quota exceeded`. -/
theorem C7_witness :
    ((500 : Nat) ≠ 200) ∧
    (finalRecord (seedRecord "zod" 5 ⟨"a.png", "image/png", 3⟩).2
        (uploadEvents none
          { service := "presigned-url", presignedUrl := "https://proxy.example" } "k"
          ⟨⟨Except.ok "tok", Except.ok ⟨500, "quota exceeded"⟩, Except.ok "u",
            Except.ok (1, 1)⟩,
           ⟨Except.ok "", Except.ok (), Except.ok (0, 0)⟩⟩)).status = Status.error ∧
    (finalRecord (seedRecord "zod" 5 ⟨"a.png", "image/png", 3⟩).2
        (uploadEvents none
          { service := "presigned-url", presignedUrl := "https://proxy.example" } "k"
          ⟨⟨Except.ok "tok", Except.ok ⟨500, "quota exceeded"⟩, Except.ok "u",
            Except.ok (1, 1)⟩,
           ⟨Except.ok "", Except.ok (), Except.ok (0, 0)⟩⟩)).errorMessage =
      some ("Tlon Hosting upload error: " ++ "quota exceeded" ++
        ", contact support if it persists.") ∧
    (∃ p q, ("Tlon Hosting upload error: " ++ "quota exceeded" ++
        ", contact support if it persists.") = p ++ "quota exceeded" ++ q) :=
  ⟨by decide,
   (C7_presigned_non200 none
      { service := "presigned-url", presignedUrl := "https://proxy.example" } "k"
      ⟨⟨Except.ok "tok", Except.ok ⟨500, "quota exceeded"⟩, Except.ok "u",
        Except.ok (1, 1)⟩,
       ⟨Except.ok "", Except.ok (), Except.ok (0, 0)⟩⟩
      (seedRecord "zod" 5 ⟨"a.png", "image/png", 3⟩).2 "tok" ⟨500, "quota exceeded"⟩
      rfl (by decide) rfl rfl (by decide)).1,
   by decide,
   ⟨"Tlon Hosting upload error: ", ", contact support if it persists.", by decide⟩⟩

/-- C2: the literal claim is false for the "missing required
configuration field" case — with `service === 'presigned-url'` but an
empty `presignedUrl`, neither strategy branch runs and the record stays
`loading` forever; it is never moved to `error`. -/
theorem C2_counterexample :
    (finalRecord (seedRecord "zod" 5 ⟨"a.png", "image/png", 3⟩).2
        (uploadEvents none { service := "presigned-url", presignedUrl := "" } "k"
          ⟨⟨Except.ok "tok", Except.error "network failure", Except.ok "",
            Except.ok (0, 0)⟩,
           ⟨Except.ok "", Except.ok (), Except.ok (0, 0)⟩⟩)).status = Status.loading ∧
    Status.loading ≠ Status.error := by decide

/-- C2 (amended): once a strategy branch actually runs, every failing
asynchronous outcome — a rejected transport call or a non-200 response —
is caught per file and recorded as `error` with the backend-prefixed
message, and the dispatch model is a total function (nothing is thrown to
the caller of `uploadFiles`); but a missing required configuration field
(or an absent client, or a rejected token scry / signed-url step) leaves
the record in `loading` rather than `error`. -/
theorem C2_strategy_failures :
    ∀ (client : Option S3Client) (cfg : StorageConfiguration) (key : String)
      (env : UploadEnv) (r₀ : FileUpload),
      (cfg.service = "presigned-url" → cfg.presignedUrl ≠ "" →
        (∃ tok, env.pre.scry = Except.ok tok) →
        ((∃ m, env.pre.put = Except.error m) ∨
         (∃ resp, env.pre.put = Except.ok resp ∧ resp.status ≠ 200) ∨
         (∃ resp m, env.pre.put = Except.ok resp ∧ resp.status = 200 ∧
            env.pre.getUrl = Except.error m)) →
        (finalRecord r₀ (uploadEvents client cfg key env)).status = Status.error ∧
        ∃ m, (finalRecord r₀ (uploadEvents client cfg key env)).errorMessage =
          some ("Tlon Hosting upload error: " ++ m ++
            ", contact support if it persists.")) ∧
      (cfg.service = "credentials" → client.isSome = true →
        ((cfg.publicUrlBase ≠ "") ∨ (∃ u, env.cred.signedUrl = Except.ok u)) →
        (∃ m, env.cred.send = Except.error m) →
        (finalRecord r₀ (uploadEvents client cfg key env)).status = Status.error ∧
        ∃ m, (finalRecord r₀ (uploadEvents client cfg key env)).errorMessage =
          some ("S3 upload error: " ++ m ++ ", check your S3 configuration.")) := by
  intro client cfg key env r₀
  constructor
  · intro h1 h2 ⟨tok, hscry⟩ hfail
    rw [uploadEvents_presigned _ _ _ _ h1 h2]
    rcases hfail with ⟨m, hput⟩ | ⟨resp, hput, h200⟩ | ⟨resp, m, hput, h200, hget⟩
    · have hev : presignedEvents env.pre =
          [UploadEvent.setStatus Status.error (some ("Tlon Hosting upload error: " ++
            m ++ ", contact support if it persists."))] := by
        unfold presignedEvents
        rw [hscry]
        dsimp only
        rw [hput]
      rw [hev,
        show finalRecord r₀ [UploadEvent.setStatus Status.loading none,
            UploadEvent.setStatus Status.error (some ("Tlon Hosting upload error: " ++
              m ++ ", contact support if it persists."))] =
          applyEvent (applyEvent r₀ (UploadEvent.setStatus Status.loading none))
            (UploadEvent.setStatus Status.error (some ("Tlon Hosting upload error: " ++
              m ++ ", contact support if it persists."))) from rfl,
        applyEvent_loading, applyEvent_error _ (tlonMsg_ne _)]
      exact ⟨rfl, m, rfl⟩
    · have hev : presignedEvents env.pre =
          [UploadEvent.setStatus Status.error (some ("Tlon Hosting upload error: " ++
            (if resp.body = "" then "Incorrect response status" else resp.body) ++
            ", contact support if it persists."))] := by
        unfold presignedEvents
        rw [hscry]
        dsimp only
        rw [hput]
        dsimp only
        rw [if_pos h200]
      rw [hev,
        show finalRecord r₀ [UploadEvent.setStatus Status.loading none,
            UploadEvent.setStatus Status.error (some ("Tlon Hosting upload error: " ++
              (if resp.body = "" then "Incorrect response status" else resp.body) ++
              ", contact support if it persists."))] =
          applyEvent (applyEvent r₀ (UploadEvent.setStatus Status.loading none))
            (UploadEvent.setStatus Status.error (some ("Tlon Hosting upload error: " ++
              (if resp.body = "" then "Incorrect response status" else resp.body) ++
              ", contact support if it persists."))) from rfl,
        applyEvent_loading, applyEvent_error _ (tlonMsg_ne _)]
      exact ⟨rfl, _, rfl⟩
    · have hev : presignedEvents env.pre =
          [UploadEvent.setStatus Status.error (some ("Tlon Hosting upload error: " ++
            m ++ ", contact support if it persists."))] := by
        unfold presignedEvents
        rw [hscry]
        dsimp only
        rw [hput]
        dsimp only
        rw [if_neg (by simp [h200]), hget]
      rw [hev,
        show finalRecord r₀ [UploadEvent.setStatus Status.loading none,
            UploadEvent.setStatus Status.error (some ("Tlon Hosting upload error: " ++
              m ++ ", contact support if it persists."))] =
          applyEvent (applyEvent r₀ (UploadEvent.setStatus Status.loading none))
            (UploadEvent.setStatus Status.error (some ("Tlon Hosting upload error: " ++
              m ++ ", contact support if it persists."))) from rfl,
        applyEvent_loading, applyEvent_error _ (tlonMsg_ne _)]
      exact ⟨rfl, m, rfl⟩
  · intro h1 h2 hurl ⟨m, hsend⟩
    rw [uploadEvents_cred _ _ _ _ h1 h2]
    have hev : credEvents cfg key env.cred =
        [UploadEvent.setStatus Status.error (some ("S3 upload error: " ++
          m ++ ", check your S3 configuration."))] := by
      unfold credEvents
      by_cases hpub : cfg.publicUrlBase ≠ ""
      · rw [if_pos hpub]
        dsimp only
        rw [hsend]
      · rcases hurl with hpub' | ⟨u, hsigned⟩
        · exact absurd hpub' hpub
        · rw [if_neg hpub, hsigned]
          dsimp only [Except.map]
          rw [hsend]
    rw [hev,
      show finalRecord r₀ [UploadEvent.setStatus Status.loading none,
          UploadEvent.setStatus Status.error (some ("S3 upload error: " ++
            m ++ ", check your S3 configuration."))] =
        applyEvent (applyEvent r₀ (UploadEvent.setStatus Status.loading none))
          (UploadEvent.setStatus Status.error (some ("S3 upload error: " ++
            m ++ ", check your S3 configuration."))) from rfl,
      applyEvent_loading, applyEvent_error _ (s3Msg_ne _)]
    exact ⟨rfl, m, rfl⟩

/-- Witness for C2 (amended): a concrete rejected transport call in each
strategy ends the record in `error` with the backend-prefixed message. -/
theorem C2_witness :
    (finalRecord (seedRecord "zod" 5 ⟨"a.png", "image/png", 3⟩).2
        (uploadEvents none
          { service := "presigned-url", presignedUrl := "https://proxy.example" } "k"
          ⟨⟨Except.ok "tok", Except.error "ECONNRESET", Except.ok "",
            Except.ok (0, 0)⟩,
           ⟨Except.ok "", Except.ok (), Except.ok (0, 0)⟩⟩)).status = Status.error ∧
    (∃ m, (finalRecord (seedRecord "zod" 5 ⟨"a.png", "image/png", 3⟩).2
        (uploadEvents none
          { service := "presigned-url", presignedUrl := "https://proxy.example" } "k"
          ⟨⟨Except.ok "tok", Except.error "ECONNRESET", Except.ok "",
            Except.ok (0, 0)⟩,
           ⟨Except.ok "", Except.ok (), Except.ok (0, 0)⟩⟩)).errorMessage =
      some ("Tlon Hosting upload error: " ++ m ++
        ", contact support if it persists.")) :=
  (C2_strategy_failures none
    { service := "presigned-url", presignedUrl := "https://proxy.example" } "k"
    ⟨⟨Except.ok "tok", Except.error "ECONNRESET", Except.ok "", Except.ok (0, 0)⟩,
     ⟨Except.ok "", Except.ok (), Except.ok (0, 0)⟩⟩
    (seedRecord "zod" 5 ⟨"a.png", "image/png", 3⟩).2).1
    rfl (by decide) ⟨"tok", rfl⟩ (Or.inl ⟨"ECONNRESET", rfl⟩)

/-- Any `setFile` mutation of a dispatch writes exactly the resolved
dispatch URL. -/
theorem setFile_url_eq {client : Option S3Client} {cfg : StorageConfiguration}
    {key : String} {env : UploadEnv} {u : String} {sz : Nat × Nat}
    (h : UploadEvent.setFile u sz ∈ uploadEvents client cfg key env) :
    u = dispatchUrl client cfg key env := by
  unfold uploadEvents at h
  rcases List.mem_cons.mp h with he | hm
  · exact absurd he (by simp)
  · rcases List.mem_append.mp hm with hp | hc
    · by_cases h1 : cfg.service = "presigned-url" ∧ cfg.presignedUrl ≠ ""
      · rw [if_pos h1] at hp
        rcases setFile_mem_presigned hp with ⟨fileUrl, hg, hu⟩
        unfold dispatchUrl
        rw [if_pos h1, hg]
        exact hu
      · rw [if_neg h1] at hp
        simp at hp
    · by_cases h2 : cfg.service = "credentials" ∧ client.isSome = true
      · rw [if_pos h2] at hc
        rcases setFile_mem_cred hc with ⟨url, hu, he⟩
        have h1f : ¬ (cfg.service = "presigned-url" ∧ cfg.presignedUrl ≠ "") :=
          fun hcon => absurd (hcon.1.symm.trans h2.1) (by decide)
        unfold dispatchUrl
        rw [if_neg h1f, if_pos h2, hu]
        exact he
      · rw [if_neg h2] at hc
        simp at hc

/-- C1: the literal claim is false — the `success` status write and the
url write are two separate atomic updates (`updateStatus` first, then
`updateFile` only after the asynchronous `imageSize` resolves), so a
reader between them observes the torn state `status = success` with an
empty url. Concretely: the third observable state of a successful
presigned-url dispatch. -/
theorem C1_counterexample :
    (observedStates (seedRecord "zod" 5 ⟨"a.png", "image/png", 3⟩).2
        (uploadEvents none
          { service := "presigned-url", presignedUrl := "https://proxy.example" } "k"
          ⟨⟨Except.ok "tok", Except.ok ⟨200, ""⟩,
            Except.ok "https://bucket.example/f.png", Except.ok (10, 20)⟩,
           ⟨Except.ok "", Except.ok (), Except.ok (0, 0)⟩⟩))[2]? =
      some { file := ⟨"a.png", "image/png", 3⟩, key := mkKey "zod" 5 "a.png",
             status := Status.success, url := "", size := (0, 0),
             errorMessage := none } ∧
    ({ file := ⟨"a.png", "image/png", 3⟩, key := mkKey "zod" 5 "a.png",
       status := Status.success, url := "", size := (0, 0),
       errorMessage := none } : FileUpload).status = Status.success ∧
    ({ file := ⟨"a.png", "image/png", 3⟩, key := mkKey "zod" 5 "a.png",
       status := Status.success, url := "", size := (0, 0),
       errorMessage := none } : FileUpload).url = "" := by decide

/-- C1 (amended): each individual update is atomic, but the url is
written by a later separate update: every state a reader observes has
either the still-empty seeded url or the resolved dispatch URL (so the
torn pair `success`/empty-url is observable in between), and when the
presigned-url flow fully succeeds the final record is `success` with the
resolved file URL. -/
theorem C1_success_url :
    ∀ (client : Option S3Client) (cfg : StorageConfiguration) (key : String)
      (env : UploadEnv) (r₀ : FileUpload),
      r₀.url = "" →
      (∀ r' ∈ observedStates r₀ (uploadEvents client cfg key env),
         r'.url = "" ∨ r'.url = dispatchUrl client cfg key env) ∧
      (cfg.service = "presigned-url" → cfg.presignedUrl ≠ "" →
        ∀ tok resp fileUrl sz,
          env.pre.scry = Except.ok tok → env.pre.put = Except.ok resp →
          resp.status = 200 → env.pre.getUrl = Except.ok fileUrl →
          env.pre.size = Except.ok sz →
          (finalRecord r₀ (uploadEvents client cfg key env)).status = Status.success ∧
          (finalRecord r₀ (uploadEvents client cfg key env)).url = fileUrl ∧
          fileUrl = dispatchUrl client cfg key env) := by
  intro client cfg key env r₀ h₀
  constructor
  · intro r' hr'
    rcases observed_url r' hr' with hu | ⟨sz, hmem⟩
    · exact Or.inl (hu.trans h₀)
    · exact Or.inr (setFile_url_eq hmem)
  · intro h1 h2 tok resp fileUrl sz hscry hput h200 hget hsize
    rw [uploadEvents_presigned _ _ _ _ h1 h2]
    have hev : presignedEvents env.pre =
        [UploadEvent.setStatus Status.success none,
         UploadEvent.setFile fileUrl sz] := by
      unfold presignedEvents
      rw [hscry]
      dsimp only
      rw [hput]
      dsimp only
      rw [if_neg (by simp [h200]), hget]
      dsimp only
      rw [hsize]
    rw [hev,
      show finalRecord r₀ [UploadEvent.setStatus Status.loading none,
          UploadEvent.setStatus Status.success none,
          UploadEvent.setFile fileUrl sz] =
        applyEvent (applyEvent (applyEvent r₀
          (UploadEvent.setStatus Status.loading none))
          (UploadEvent.setStatus Status.success none))
          (UploadEvent.setFile fileUrl sz) from rfl,
      applyEvent_loading, applyEvent_success]
    refine ⟨rfl, rfl, ?_⟩
    unfold dispatchUrl
    rw [if_pos ⟨h1, h2⟩, hget]

/-- Witness for C1 (amended) at a concrete successful presigned-url
dispatch: the final record is `success` and carries the resolved URL. -/
theorem C1_witness :
    ((seedRecord "zod" 5 (⟨"a.png", "image/png", 3⟩ : JSFile)).2.url = "") ∧
    (finalRecord (seedRecord "zod" 5 ⟨"a.png", "image/png", 3⟩).2
        (uploadEvents none
          { service := "presigned-url", presignedUrl := "https://proxy.example" } "k"
          ⟨⟨Except.ok "tok", Except.ok ⟨200, ""⟩,
            Except.ok "https://bucket.example/f.png", Except.ok (10, 20)⟩,
           ⟨Except.ok "", Except.ok (), Except.ok (0, 0)⟩⟩)).status =
      Status.success ∧
    (finalRecord (seedRecord "zod" 5 ⟨"a.png", "image/png", 3⟩).2
        (uploadEvents none
          { service := "presigned-url", presignedUrl := "https://proxy.example" } "k"
          ⟨⟨Except.ok "tok", Except.ok ⟨200, ""⟩,
            Except.ok "https://bucket.example/f.png", Except.ok (10, 20)⟩,
           ⟨Except.ok "", Except.ok (), Except.ok (0, 0)⟩⟩)).url =
      "https://bucket.example/f.png" := by
  have h := (C1_success_url none
    { service := "presigned-url", presignedUrl := "https://proxy.example" } "k"
    ⟨⟨Except.ok "tok", Except.ok ⟨200, ""⟩,
      Except.ok "https://bucket.example/f.png", Except.ok (10, 20)⟩,
     ⟨Except.ok "", Except.ok (), Except.ok (0, 0)⟩⟩
    (seedRecord "zod" 5 ⟨"a.png", "image/png", 3⟩).2 rfl).2
    rfl (by decide) "tok" ⟨200, ""⟩ "https://bucket.example/f.png" (10, 20)
    rfl rfl rfl rfl rfl
  exact ⟨rfl, h.1, h.2.1⟩
